import Mathlib

/-!
Shallow embedding of the ipcalc-go IPv4 subnet calculator (main.go, the
variant whose symbols the design document describes: IPv4ToInt, NewNetwork,
ParseMask, prefixToMask, getSubnetCount, CreateSubnets).

Go strings are modelled as `List Char` (with `String` wrappers at the public
entry points), Go `uint32`/`uint64` values as `Nat` with explicit `% 2^32`
(written `4294967296`) where the source relies on wraparound, and fallible Go
functions as `Except`-valued Lean functions.  A Go runtime panic is modelled
as an explicit result constructor.
-/

/-- Models the error-sentinel type `IPv4Error` of the source.  The four
constructors correspond to the four constants `ErrOutOfRange`,
`ErrInvalidSyntax`, `ErrPrefixTooSmall` and `ErrMaskParse` (the second is
named `invalidStx` here because its Go name cannot be used verbatim). -/
inductive IPv4Error where
  | outOfRange
  | invalidStx
  | prefixTooSmall
  | maskParse
  deriving DecidableEq

deriving instance DecidableEq for Except

/-- `ErrOutOfRange` of the source. -/
def ErrOutOfRange : IPv4Error := .outOfRange

/-- `ErrInvalidSyntax` of the source. -/
def ErrInvalidStx : IPv4Error := .invalidStx

/-- `ErrPrefixTooSmall` of the source. -/
def ErrPrefixTooSmall : IPv4Error := .prefixTooSmall

/-- `ErrMaskParse` of the source. -/
def ErrMaskParse : IPv4Error := .maskParse

/-- Models the two error values of Go's `strconv` package that
`strconv.ParseUint` can produce: `strconv.ErrSyntax` (`stxErr`) and
`strconv.ErrRange` (`rangeErr`). -/
inductive StrconvErr where
  | stxErr
  | rangeErr
  deriving DecidableEq

/-- Models `convertStrconvError`: `strconv.ErrRange` becomes `ErrOutOfRange`
and `strconv.ErrSyntax` becomes `ErrInvalidSyntax`.  (The Go default branch,
which passes any other error through, is unreachable for errors produced by
`strconv.ParseUint`.) -/
def convertStrconvError : StrconvErr → IPv4Error
  | .rangeErr => ErrOutOfRange
  | .stxErr => ErrInvalidStx

/-- The numeric value of a list of decimal digit characters, most significant
first (the value `strconv.ParseUint` computes for an all-digit token). -/
def digitsToNat (l : List Char) : Nat :=
  l.foldl (fun a c => a * 10 + (c.toNat - 48)) 0

/-- Models `strconv.ParseUint(s, 10, 0)` on a 64-bit platform: returns the
pair (value, error).  A token that is empty or contains any non-digit
character (including a sign) yields `(0, ErrSyntax)`; an all-digit token
whose value does not fit in 64 bits yields `(MaxUint64, ErrRange)`; otherwise
the value is returned with no error. -/
def goParseUint (s : List Char) : Nat × Option StrconvErr :=
  if s.isEmpty then (0, some .stxErr)
  else if s.all Char.isDigit then
    if digitsToNat s < 18446744073709551616 then (digitsToNat s, none)
    else (18446744073709551615, some .rangeErr)
  else (0, some .stxErr)

/-- Models `strings.Split(s, ".")`: the (never empty) list of `.`-separated
fragments, empty fragments preserved. -/
def splitOnDot : List Char → List (List Char)
  | [] => [[]]
  | c :: rest =>
    match splitOnDot rest with
    | [] => [[]]
    | t :: ts => if c = '.' then [] :: t :: ts else (c :: t) :: ts

/-- Outcome of `IPv4ToInt`: a 32-bit value, an `IPv4Error`, or a runtime
panic (`binary.BigEndian.Uint32` panics on a slice shorter than 4 bytes). -/
inductive IPv4Result where
  | ok (v : Nat)
  | err (e : IPv4Error)
  | panics
  deriving DecidableEq

/-- Models `binary.BigEndian.Uint32` on a byte slice of length at least 4:
`b[0]<<24 | b[1]<<16 | b[2]<<8 | b[3]` (extra bytes are ignored). -/
def beUint32 : List Nat → Nat
  | b0 :: b1 :: b2 :: b3 :: _ => (b0 <<< 24) ||| (b1 <<< 16) ||| (b2 <<< 8) ||| b3
  | _ => 0

/-- The token loop of `IPv4ToInt`: for each token, `strconv.ParseUint` is
called; the source checks `val > 255` BEFORE checking the parse error, then
converts the error via `convertStrconvError`; on success `byte(val)` is
appended to the byte slice.  After the loop `binary.BigEndian.Uint32` is
applied, which panics when fewer than 4 bytes were accumulated and ignores
bytes past the fourth. -/
def ipv4Loop : List (List Char) → List Nat → IPv4Result
  | [], acc => if acc.length < 4 then .panics else .ok (beUint32 acc)
  | t :: ts, acc =>
    let r := goParseUint t
    if 255 < r.1 then .err ErrOutOfRange
    else
      match r.2 with
      | some e => .err (convertStrconvError e)
      | none => ipv4Loop ts (acc ++ [r.1 % 256])

/-- Models `IPv4ToInt(addrString string) (uint32, error)`, with the panic of
`binary.BigEndian.Uint32` made explicit. -/
def IPv4ToInt (s : String) : IPv4Result :=
  ipv4Loop (splitOnDot s.toList) []

/-- Models the `Network` struct: the seven `uint32` values (the display
labels of the wrapped `IPv4Address` values carry no information and are
dropped). -/
structure Network where
  address : Nat
  mask : Nat
  network : Nat
  hostMin : Nat
  hostMax : Nat
  broadcast : Nat
  hostsPerNet : Nat
  deriving DecidableEq

/-- Models the Go unary complement `^m` on `uint32`. -/
def u32not (m : Nat) : Nat := m ^^^ 4294967295

/-- Models `NewNetwork(address, mask uint32) *Network`: pure, total,
unchecked wraparound `uint32` arithmetic (`% 4294967296` wherever the Go
operation can wrap; `a + 4294967296 - b` is `uint32` subtraction on
values below `2^32`). -/
def NewNetwork (address mask : Nat) : Network :=
  let ip_network := address &&& mask
  let ip_hostMin := (ip_network + 1) % 4294967296
  let ip_broadcast := (ip_network + u32not mask) % 4294967296
  let ip_hostMax := (ip_broadcast + 4294967296 - 1) % 4294967296
  let ip_hostCount := (ip_broadcast + 4294967296 - ip_hostMin) % 4294967296
  ⟨address, mask, ip_network, ip_hostMin, ip_hostMax, ip_broadcast, ip_hostCount⟩

/-- Models `bits.OnesCount32`: the number of set bits among the 32 bits of a
`uint32` value. -/
def popCount32 (n : Nat) : Nat :=
  (List.range 32).countP (fun i => n.testBit i)

/-- Models `getSubnetCount(prefix, subnetPrefix int) (int, error)`.  The Go
guard `prefix >= subnetPrefix` is `sp ≤ p` here.  The Go body computes
`int(math.Exp2(32-float64(prefix)) / math.Exp2(32-float64(subnetPrefix)))`;
for the values this program can pass (bit counts of `uint32` values, hence
`0 ≤ p < sp ≤ 32`) every intermediate `float64` is an exactly representable
power of two and the quotient is exactly `2^(sp - p)`, which is what this
model returns. -/
def getSubnetCount (p sp : Nat) : Except IPv4Error Nat :=
  if sp ≤ p then .error ErrPrefixTooSmall
  else .ok (2 ^ (sp - p))

/-- The loop of `CreateSubnets` as a recursion: entry 0 is
`NewNetwork(address, subnetMask)`, and each later entry restarts from
`previous.broadcast + 1` (a `uint32` addition, hence the `% 4294967296`). -/
def buildSubnets (address subnetMask : Nat) : Nat → List Network
  | 0 => []
  | n + 1 =>
    NewNetwork address subnetMask ::
      buildSubnets (((NewNetwork address subnetMask).broadcast + 1) % 4294967296) subnetMask n

/-- Models `CreateSubnets(address, mask, subnetMask uint32)`: derives both
bit counts with `bits.OnesCount32`, obtains the subnet count via
`getSubnetCount` (propagating its error unchanged), then builds the list
iteratively. -/
def CreateSubnets (address mask subnetMask : Nat) : Except IPv4Error (List Network) :=
  match getSubnetCount (popCount32 mask) (popCount32 subnetMask) with
  | .error e => .error e
  | .ok c => .ok (buildSubnets address subnetMask c)

/-- Models `prefixToMask(prefix uint32) uint32`, i.e.
`uint32(math.Exp2(32) - math.Exp2(float64(32-prefix)))`.  For `p ≤ 32` both
`math.Exp2` results and their difference are exact in `float64`, so the Go
result is exactly `2^32 - 2^(32-p)`.  (For `p > 32` the Go expression
converts a negative or non-finite `float64` to `uint32`, which the Go
specification leaves implementation-defined; no theorem below relies on this
function beyond `p = 32`.) -/
def maskOfCidr (p : Nat) : Nat := 4294967296 - 2 ^ (32 - p)

/-- The characters `fmt`'s verbs skip as whitespace before scanning a
number: the `space` table of fmt/scan.go — 0x09–0x0D, 0x20 (space), 0x85,
0xA0, 0x1680, 0x2000–0x200A, 0x2028, 0x2029, 0x202F, 0x3000 — minus the
newline 0x0A.  `SkipSpace` does not skip a newline for `Sscanf`: it aborts
the scan with an error, so the scan count falls short of the verb count and
`ParseMask` fails with `MaskParse`; the model reaches the same outcome by
leaving the newline in place, where it is neither blank nor digit and makes
the scan fail.  (A carriage return directly before a newline is likewise
consumed by `SkipSpace` before the newline aborts the scan, so treating
0x0D as always-blank agrees with the source there too.) -/
def blank (c : Char) : Bool :=
  (9 ≤ c.toNat && c.toNat ≤ 13 && c.toNat ≠ 10) || c = ' ' ||
  c.toNat = 133 || c.toNat = 160 || c.toNat = 5760 ||
  (8192 ≤ c.toNat && c.toNat ≤ 8202) ||
  c.toNat = 8232 || c.toNat = 8233 || c.toNat = 8239 || c.toNat = 12288

/-- Models one `%d` scan of `fmt.Sscanf`: skip blanks, then consume a
maximal non-empty run of decimal digits; no sign is accepted for an unsigned
destination; the value and the unconsumed remainder are returned. -/
def scanNat (l : List Char) : Option (Nat × List Char) :=
  let l1 := l.dropWhile blank
  let ds := l1.takeWhile Char.isDigit
  if ds.isEmpty then none else some (digitsToNat ds, l1.dropWhile Char.isDigit)

/-- Models `fmt.Sscanf(mask, "/%d", &prefix)` applied to the text after the
leading `/`: one `%d` scan whose value must fit the `uint32` destination
(`fmt` reports an overflow error otherwise, making the scan count 0).
Trailing unconsumed input is not an error for `Sscanf`. -/
def sscanSlashD (l : List Char) : Option Nat :=
  match scanNat l with
  | none => none
  | some (v, _) => if v < 4294967296 then some v else none

/-- One octet of the `"%d.%d.%d.%d"` scan: a `%d` scan whose value must fit
the `byte` destination. -/
def scanOctet (l : List Char) : Option (Nat × List Char) :=
  match scanNat l with
  | none => none
  | some (v, r) => if v < 256 then some (v, r) else none

/-- A literal `.` of the format string: it must match the next input
character exactly (no blank skipping before a literal). -/
def expectDot : List Char → Option (List Char)
  | [] => none
  | c :: rest => if c = '.' then some rest else none

/-- Models `fmt.Sscanf(mask, "%d.%d.%d.%d", &octets[0], ...)`: four octet
scans separated by literal dots; trailing unconsumed input is ignored.
Returns the four octet values when all four verbs succeed (scan count 4). -/
def sscanQuad (l : List Char) : Option (Nat × Nat × Nat × Nat) :=
  match scanOctet l with
  | none => none
  | some (v0, r0) =>
    match expectDot r0 with
    | none => none
    | some r0t =>
      match scanOctet r0t with
      | none => none
      | some (v1, r1) =>
        match expectDot r1 with
        | none => none
        | some r1t =>
          match scanOctet r1t with
          | none => none
          | some (v2, r2) =>
            match expectDot r2 with
            | none => none
            | some r2t =>
              match scanOctet r2t with
              | none => none
              | some (v3, _) => some (v0, v1, v2, v3)

/-- Models `ParseMask(mask string) (uint32, error)` on the character list:
inputs of length at most 1 fail with `ErrMaskParse`; an input starting with
`/` goes through the `"/%d"` scan and `prefixToMask`; any other input goes
through the `"%d.%d.%d.%d"` scan, whose four octets are packed big-endian.
(`fmt.Sscanf` returns a nil error whenever its scan count equals the number
of verbs, so the Go branches returning a non-`ErrMaskParse` error are
unreachable and only the `count != 1` / `count != 4` rejections remain.) -/
def parseMaskL : List Char → Except IPv4Error Nat
  | [] => .error ErrMaskParse
  | [_] => .error ErrMaskParse
  | c :: rest =>
    if c = '/' then
      match sscanSlashD rest with
      | none => .error ErrMaskParse
      | some p => .ok (maskOfCidr p)
    else
      match sscanQuad (c :: rest) with
      | none => .error ErrMaskParse
      | some (v0, v1, v2, v3) => .ok ((v0 <<< 24) ||| (v1 <<< 16) ||| (v2 <<< 8) ||| v3)

/-- Models `ParseMask` at the `string` interface. -/
def ParseMask (s : String) : Except IPv4Error Nat :=
  parseMaskL s.toList

/-- Spec-side definition (§4.1, claim C6): the 32-bit value with the top `N`
bits set to 1 and the remaining `32 − N` bits set to 0. -/
def topBitsValue (N : Nat) : Nat := (2 ^ N - 1) * 2 ^ (32 - N)

/-- Spec-side definition (§6, claim C9): the strict mask grammar
`/<decimal 0-32>` — a `/` followed by a non-empty all-digit token whose
value is at most 32. -/
def isSlashForm : List Char → Bool
  | '/' :: ds => !ds.isEmpty && ds.all Char.isDigit && digitsToNat ds ≤ 32
  | _ => false

/-- Spec-side definition (§6, claim C9): the strict dotted-quad mask grammar
`<ddd>.<ddd>.<ddd>.<ddd>` — exactly four dot-separated non-empty all-digit
fields, each of value at most 255. -/
def isQuadForm (l : List Char) : Bool :=
  match splitOnDot l with
  | [a, b, c, d] =>
    [a, b, c, d].all fun t => !t.isEmpty && t.all Char.isDigit && digitsToNat t ≤ 255
  | _ => false

theorem two_pow_32 : (4294967296 : Nat) = 2 ^ 32 := by norm_num

/-- Two numbers with disjoint bits add without carries, so their sum is
their bitwise or. -/
theorem lor_eq_add_of_land_eq_zero (x y : Nat) (h : x &&& y = 0) : x ||| y = x + y := by
  induction x using Nat.div2Induction generalizing y with
  | ind x ih =>
    rcases Nat.eq_zero_or_pos x with hx | hx
    · subst hx; simp
    · have h2 : x / 2 &&& y / 2 = 0 := by
        have hdq := congrArg (· / 2) h
        simpa [Nat.and_div_two] using hdq

      have hmod : ¬(x % 2 = 1 ∧ y % 2 = 1) := by
        intro hc
        have h1 : (x &&& y) % 2 = 1 := Nat.and_mod_two_eq_one.mpr hc
        rw [h] at h1
        simp at h1
      have hor : (x ||| y) % 2 = 1 ↔ (x % 2 = 1 ∨ y % 2 = 1) := Nat.or_mod_two_eq_one
      have hdiv : (x ||| y) / 2 = x / 2 + y / 2 := by
        rw [Nat.or_div_two, ih hx (y / 2) h2]
      have hdm := Nat.div_add_mod (x ||| y) 2
      have hdmx := Nat.div_add_mod x 2
      have hdmy := Nat.div_add_mod y 2
      have hormod := Nat.mod_two_eq_zero_or_one (x ||| y)
      have hx2 := Nat.mod_two_eq_zero_or_one x
      have hy2 := Nat.mod_two_eq_zero_or_one y
      omega

/-- The network part and the complemented mask occupy disjoint bits. -/
theorem network_land_u32not (a m : Nat) (hm : m < 4294967296) :
    (a &&& m) &&& u32not m = 0 := by
  apply Nat.eq_of_testBit_eq
  intro i
  simp only [u32not, Nat.testBit_and, Nat.testBit_xor, Nat.zero_testBit]
  rcases lt_or_ge i 32 with hi | hi
  · have hone : (4294967295 : Nat).testBit i = true := by
      have he : (4294967295 : Nat) = 2 ^ 32 - 1 := by norm_num
      rw [he, Nat.testBit_two_pow_sub_one]
      simpa using hi
    rw [hone]
    cases hmb : m.testBit i <;> simp [hmb]
  · have hmi : m.testBit i = false := by
      apply Nat.testBit_lt_two_pow
      calc m < 4294967296 := hm
        _ = 2 ^ 32 := two_pow_32
        _ ≤ 2 ^ i := Nat.pow_le_pow_right (by norm_num) hi
    rw [hmi]
    simp

theorem u32not_lt (m : Nat) (hm : m < 4294967296) : u32not m < 4294967296 := by
  rw [two_pow_32]
  exact Nat.xor_lt_two_pow (two_pow_32 ▸ hm) (by norm_num)

theorem network_lt (a m : Nat) (hm : m < 4294967296) : a &&& m < 4294967296 := by
  rw [two_pow_32]
  exact Nat.and_lt_two_pow a (two_pow_32 ▸ hm)

/-- The wrapped sum `network + ^mask` never actually wraps, and equals the
bitwise or `network OR NOT mask`. -/
theorem broadcast_eq_or (a m : Nat) (hm : m < 4294967296) :
    ((a &&& m) + u32not m) % 4294967296 = (a &&& m) ||| u32not m := by
  have hadd : (a &&& m) ||| u32not m = (a &&& m) + u32not m :=
    lor_eq_add_of_land_eq_zero _ _ (network_land_u32not a m hm)
  have hlt : (a &&& m) ||| u32not m < 4294967296 := by
    rw [two_pow_32]
    exact Nat.or_lt_two_pow (two_pow_32 ▸ network_lt a m hm) (two_pow_32 ▸ u32not_lt m hm)
  rw [← hadd, Nat.mod_eq_of_lt hlt]

/-- The relaxed slash grammar the scanner actually enforces (claim C9,
amended): a `/`, optional blanks, a maximal non-empty digit run whose value
fits `uint32`, then arbitrary trailing characters. -/
def RelaxedSlash (l : List Char) : Prop :=
  ∃ bs ds t, l = '/' :: (bs ++ ds ++ t) ∧ (∀ c ∈ bs, blank c = true) ∧ ds ≠ [] ∧
    (∀ c ∈ ds, c.isDigit = true) ∧ digitsToNat ds < 4294967296 ∧
    (∀ c t2, t = c :: t2 → c.isDigit = false)

/-- The relaxed dotted-quad grammar the scanner actually enforces (claim C9,
amended): four maximal non-empty digit runs below 256, each preceded by
optional blanks, separated by literal dots, then arbitrary trailing
characters. -/
def RelaxedQuad (l : List Char) : Prop :=
  ∃ bs0 d0 bs1 d1 bs2 d2 bs3 d3 t,
    l = bs0 ++ d0 ++ '.' :: (bs1 ++ d1 ++ '.' :: (bs2 ++ d2 ++ '.' :: (bs3 ++ d3 ++ t))) ∧
    ((∀ c ∈ bs0, blank c = true) ∧ (∀ c ∈ bs1, blank c = true) ∧
     (∀ c ∈ bs2, blank c = true) ∧ (∀ c ∈ bs3, blank c = true)) ∧
    (d0 ≠ [] ∧ d1 ≠ [] ∧ d2 ≠ [] ∧ d3 ≠ []) ∧
    ((∀ c ∈ d0, c.isDigit = true) ∧ (∀ c ∈ d1, c.isDigit = true) ∧
     (∀ c ∈ d2, c.isDigit = true) ∧ (∀ c ∈ d3, c.isDigit = true)) ∧
    (digitsToNat d0 < 256 ∧ digitsToNat d1 < 256 ∧ digitsToNat d2 < 256 ∧
     digitsToNat d3 < 256) ∧
    (∀ c t2, t = c :: t2 → c.isDigit = false)

/-- The embedding reproduces the repository's own test vectors
(TestIPConversion, TestSubnets, TestIPv4Parsing in main_test.go). -/
theorem matches_go_test_vectors :
    IPv4ToInt "192.168.0.1" = .ok 3232235521 ∧
    ParseMask "/25" = .ok 4294967168 ∧
    ParseMask "255.255.255.128" = .ok 4294967168 ∧
    CreateSubnets 3232235521 4294967040 4294967040 = .error ErrPrefixTooSmall ∧
    CreateSubnets 3232235521 4294967040 4294967168 =
      .ok [⟨3232235521, 4294967168, 3232235520, 3232235521, 3232235646, 3232235647, 126⟩,
           ⟨3232235648, 4294967168, 3232235648, 3232235649, 3232235774, 3232235775, 126⟩] := by
  refine ⟨by decide, by decide, by decide, by decide, by decide⟩

/-- C1: for every pair of 32-bit values (address, mask), `NewNetwork`
(a total function) computes, with arithmetic modulo `2^32`:
`network = address AND mask`, `hostMin = network + 1`,
`broadcast = network + NOT mask`, which equals `network OR NOT mask`,
`hostMax = broadcast − 1` and `hostsPerNet = broadcast − hostMin`, with no
special-casing of degenerate masks. -/
theorem newNetwork_mod32_formulas (a m : Nat) (_ha : a < 4294967296) (hm : m < 4294967296) :
    (NewNetwork a m).network = a &&& m ∧
    (NewNetwork a m).hostMin = ((a &&& m) + 1) % 4294967296 ∧
    (NewNetwork a m).broadcast = ((a &&& m) + u32not m) % 4294967296 ∧
    (NewNetwork a m).broadcast = (a &&& m) ||| u32not m ∧
    (NewNetwork a m).hostMax = ((NewNetwork a m).broadcast + 4294967296 - 1) % 4294967296 ∧
    (NewNetwork a m).hostsPerNet =
      ((NewNetwork a m).broadcast + 4294967296 - (NewNetwork a m).hostMin) % 4294967296 :=
  ⟨rfl, rfl, rfl, broadcast_eq_or a m hm, rfl, rfl⟩

/-- Witness for C1 at address 192.168.0.1 and mask /24. -/
theorem newNetwork_mod32_formulas_witness :
    3232235521 < 4294967296 ∧ 4294967040 < 4294967296 ∧
    (NewNetwork 3232235521 4294967040).broadcast =
      (3232235521 &&& 4294967040) ||| u32not 4294967040 :=
  ⟨by decide, by decide,
    (newNetwork_mod32_formulas 3232235521 4294967040 (by decide) (by decide)).2.2.2.1⟩

/-- C7 counterexample: at address 0 with the /32 mask `0xFFFFFFFF`, the
descriptor has `hostMax = 0xFFFFFFFF > broadcast = 0`, so the claimed chain
`network ≤ hostMin ≤ hostMax ≤ broadcast` is false. -/
theorem newNetwork_order_fails_slash32 :
    ¬((NewNetwork 0 4294967295).network ≤ (NewNetwork 0 4294967295).hostMin ∧
      (NewNetwork 0 4294967295).hostMin ≤ (NewNetwork 0 4294967295).hostMax ∧
      (NewNetwork 0 4294967295).hostMax ≤ (NewNetwork 0 4294967295).broadcast ∧
      (NewNetwork 0 4294967295).network &&& 4294967295 = (NewNetwork 0 4294967295).network) := by
  decide

/-- C7 amended: `network AND mask == network` holds for every pair, and the
chain `network ≤ hostMin ≤ hostMax ≤ broadcast` holds for every pair of
32-bit values whose mask leaves at least two host addresses
(`NOT mask ≥ 2`, i.e. every contiguous mask up to /30); it fails for the
degenerate /31 and /32 masks, where `hostMin` or `hostMax` wraps. -/
theorem newNetwork_invariants_amended (a m : Nat) :
    (NewNetwork a m).network &&& m = (NewNetwork a m).network ∧
    (a < 4294967296 → m < 4294967296 → 2 ≤ u32not m →
      (NewNetwork a m).network ≤ (NewNetwork a m).hostMin ∧
      (NewNetwork a m).hostMin ≤ (NewNetwork a m).hostMax ∧
      (NewNetwork a m).hostMax ≤ (NewNetwork a m).broadcast) := by
  constructor
  · show (a &&& m) &&& m = a &&& m
    rw [Nat.and_assoc, Nat.and_self]
  · intro _ hm h2
    have hb := broadcast_eq_or a m hm
    have hadd : (a &&& m) ||| u32not m = (a &&& m) + u32not m :=
      lor_eq_add_of_land_eq_zero _ _ (network_land_u32not a m hm)
    have hlt : (a &&& m) + u32not m < 4294967296 := by
      rw [← hadd, two_pow_32]
      exact Nat.or_lt_two_pow (two_pow_32 ▸ network_lt a m hm) (two_pow_32 ▸ u32not_lt m hm)
    simp only [NewNetwork]
    omega

theorem buildSubnets_length (sm : Nat) : ∀ (n a : Nat), (buildSubnets a sm n).length = n
  | 0, _ => rfl
  | n + 1, a => by simp [buildSubnets, buildSubnets_length sm n]

theorem buildSubnets_head (a sm n : Nat) (h : 0 < n) :
    (buildSubnets a sm n)[0]? = some (NewNetwork a sm) := by
  cases n with
  | zero => omega
  | succ k => simp [buildSubnets]

/-- Each entry of the generated list after the first is `NewNetwork` of its
predecessor's `broadcast + 1` (wrapped to 32 bits). -/
theorem buildSubnets_chain (sm : Nat) :
    ∀ (n a i : Nat) (ni ni1 : Network),
      (buildSubnets a sm n)[i]? = some ni → (buildSubnets a sm n)[i + 1]? = some ni1 →
      ni1 = NewNetwork ((ni.broadcast + 1) % 4294967296) sm := by
  intro n
  induction n with
  | zero => intro a i ni ni1 h1 _; simp [buildSubnets] at h1
  | succ n ih =>
    intro a i ni ni1 h1 h2
    cases i with
    | zero =>
      simp [buildSubnets] at h1
      cases n with
      | zero => simp [buildSubnets] at h2
      | succ k =>
        rw [show (1 : Nat) = 0 + 1 from rfl] at h2
        simp only [buildSubnets, List.getElem?_cons_succ, List.getElem?_cons_zero] at h2
        subst h1
        exact (Option.some_inj.mp h2).symm
    | succ j =>
      simp only [buildSubnets, List.getElem?_cons_succ] at h1 h2
      exact ih _ j ni ni1 h1 h2

/-- C2 counterexample: for base address 192.168.0.1 (not network-aligned),
parent mask /24 and child mask /25, the first returned subnet's `address`
field is the raw base address 3232235521, not the parent network address
`baseAddress AND parentMask = 3232235520`. -/
theorem createSubnets_head_not_parent_network :
    CreateSubnets 3232235521 4294967040 4294967168 =
      .ok [⟨3232235521, 4294967168, 3232235520, 3232235521, 3232235646, 3232235647, 126⟩,
           ⟨3232235648, 4294967168, 3232235648, 3232235649, 3232235774, 3232235775, 126⟩] ∧
    (⟨3232235521, 4294967168, 3232235520, 3232235521, 3232235646, 3232235647, 126⟩ :
        Network).address ≠ 3232235521 &&& 4294967040 :=
  ⟨by decide, by decide⟩

/-- C2 amended: the first element of every successful `CreateSubnets` result
is `NewNetwork(baseAddress, childMask)`, whose `address` field is the
caller-supplied `baseAddress` itself; it equals the parent network address
`baseAddress AND parentMask` only when `baseAddress` is already
network-aligned. -/
theorem createSubnets_first_address (a m sm : Nat) (l : List Network)
    (h : CreateSubnets a m sm = .ok l) :
    l ≠ [] ∧ l[0]? = some (NewNetwork a sm) ∧ (NewNetwork a sm).address = a ∧
    (a &&& m = a → (NewNetwork a sm).address = a &&& m) := by
  have hc : ∃ c, getSubnetCount (popCount32 m) (popCount32 sm) = .ok c ∧
      l = buildSubnets a sm c := by
    unfold CreateSubnets at h
    cases hg : getSubnetCount (popCount32 m) (popCount32 sm) with
    | error e => rw [hg] at h; exact absurd h (by simp)
    | ok c => rw [hg] at h; exact ⟨c, rfl, (Except.ok.inj h).symm⟩
  obtain ⟨c, hg, hl⟩ := hc
  have hcpos : 0 < c := by
    unfold getSubnetCount at hg
    by_cases hle : popCount32 sm ≤ popCount32 m
    · rw [if_pos hle] at hg; exact absurd hg (by simp)
    · rw [if_neg hle] at hg
      have := Except.ok.inj hg
      rw [← this]
      exact Nat.pos_pow_of_pos _ (by norm_num)
  subst hl
  refine ⟨?_, buildSubnets_head a sm c hcpos, rfl, fun hal => hal.symm⟩
  intro hnil
  have := buildSubnets_length sm c a
  rw [hnil] at this
  simp at this
  omega

/-- Witness for C2 at the aligned base address 192.168.0.0. -/
theorem createSubnets_first_address_witness :
    (NewNetwork 3232235520 4294967168).address = 3232235520 &&& 4294967040 :=
  (createSubnets_first_address 3232235520 4294967040 4294967168
      [⟨3232235520, 4294967168, 3232235520, 3232235521, 3232235646, 3232235647, 126⟩,
       ⟨3232235648, 4294967168, 3232235648, 3232235649, 3232235774, 3232235775, 126⟩]
      (by decide)).2.2.2 (by decide)

/-- C3: every successful `CreateSubnets(baseAddress, parentMask, childMask)`
list starts with `Construct(baseAddress, childMask)`, each later entry is
`Construct(previous.broadcast + 1, childMask)` (32-bit wraparound addition),
and consequently adjacent entries satisfy
`subnet[i].broadcast + 1 == subnet[i+1].address`. -/
theorem createSubnets_iterative (a m sm : Nat) (l : List Network)
    (h : CreateSubnets a m sm = .ok l) :
    (l ≠ [] → l[0]? = some (NewNetwork a sm)) ∧
    (∀ (i : Nat) (ni ni1 : Network), l[i]? = some ni → l[i + 1]? = some ni1 →
      ni1 = NewNetwork ((ni.broadcast + 1) % 4294967296) sm ∧
      ni1.address = (ni.broadcast + 1) % 4294967296) := by
  have hc : ∃ c, l = buildSubnets a sm c := by
    unfold CreateSubnets at h
    cases hg : getSubnetCount (popCount32 m) (popCount32 sm) with
    | error e => rw [hg] at h; exact absurd h (by simp)
    | ok c => rw [hg] at h; exact ⟨c, (Except.ok.inj h).symm⟩
  obtain ⟨c, hl⟩ := hc
  subst hl
  constructor
  · intro hnil
    apply buildSubnets_head
    cases c with
    | zero => exact absurd rfl hnil
    | succ k => omega
  · intro i ni ni1 h1 h2
    have heq := buildSubnets_chain sm c a i ni ni1 h1 h2
    exact ⟨heq, by rw [heq]; rfl⟩

/-- Witness for C3: in the /24 → /25 split of 192.168.0.1, the second subnet
is built from the first subnet's broadcast plus one. -/
theorem createSubnets_iterative_witness :
    (⟨3232235648, 4294967168, 3232235648, 3232235649, 3232235774, 3232235775, 126⟩ :
        Network) =
      NewNetwork
        (((⟨3232235521, 4294967168, 3232235520, 3232235521, 3232235646, 3232235647, 126⟩ :
            Network).broadcast + 1) % 4294967296) 4294967168 ∧
    (⟨3232235648, 4294967168, 3232235648, 3232235649, 3232235774, 3232235775, 126⟩ :
        Network).address =
      ((⟨3232235521, 4294967168, 3232235520, 3232235521, 3232235646, 3232235647, 126⟩ :
          Network).broadcast + 1) % 4294967296 :=
  (createSubnets_iterative 3232235521 4294967040 4294967168
      [⟨3232235521, 4294967168, 3232235520, 3232235521, 3232235646, 3232235647, 126⟩,
       ⟨3232235648, 4294967168, 3232235648, 3232235649, 3232235774, 3232235775, 126⟩]
      (by decide)).2 0 _ _ (by decide) (by decide)

/-- C4: `getSubnetCount` fails with `PrefixTooSmall` exactly when the child
bit count is at most the parent bit count, and otherwise returns
`2^(child − parent)`; `CreateSubnets` propagates the error unchanged and on
success returns exactly that many descriptors. -/
theorem getSubnetCount_createSubnets_spec :
    (∀ p sp : Nat, p ≤ 32 → sp ≤ 32 →
      ((getSubnetCount p sp = .error ErrPrefixTooSmall ↔ sp ≤ p) ∧
       (p < sp → getSubnetCount p sp = .ok (2 ^ (sp - p))))) ∧
    (∀ a m sm e, getSubnetCount (popCount32 m) (popCount32 sm) = .error e →
      CreateSubnets a m sm = .error e) ∧
    (∀ a m sm c, getSubnetCount (popCount32 m) (popCount32 sm) = .ok c →
      ∃ l, CreateSubnets a m sm = .ok l ∧ l.length = c) := by
  refine ⟨?_, ?_, ?_⟩
  · intro p sp _ _
    constructor
    · unfold getSubnetCount
      by_cases hle : sp ≤ p
      · simp [hle]
      · simp [hle]
    · intro hlt
      unfold getSubnetCount
      rw [if_neg (by omega)]
  · intro a m sm e hg
    unfold CreateSubnets
    rw [hg]
  · intro a m sm c hg
    refine ⟨buildSubnets a sm c, ?_, buildSubnets_length sm c a⟩
    unfold CreateSubnets
    rw [hg]

/-- Witness for C4 at parent /24 and child /25. -/
theorem getSubnetCount_createSubnets_spec_witness :
    getSubnetCount 24 25 = .ok (2 ^ (25 - 24)) ∧
    (getSubnetCount 25 24 = .error ErrPrefixTooSmall ↔ 24 ≤ 25) :=
  ⟨(getSubnetCount_createSubnets_spec.1 24 25 (by decide) (by decide)).2 (by decide),
   (getSubnetCount_createSubnets_spec.1 25 24 (by decide) (by decide)).1⟩

/-- A token the `IPv4ToInt` loop accepts and turns into one byte: non-empty,
all decimal digits, with value at most 255. -/
def tokOK (t : List Char) : Prop :=
  t ≠ [] ∧ t.all Char.isDigit = true ∧ digitsToNat t ≤ 255

instance (t : List Char) : Decidable (tokOK t) := by
  unfold tokOK
  infer_instance

/-- Base case of the token-error analysis: the loop's treatment of the first
remaining token when that token is bad. -/
theorem ipv4Loop_err_base (tok : List Char) (suf : List (List Char)) (acc : List Nat) :
    (tok.all Char.isDigit = true → 255 < digitsToNat tok →
      ipv4Loop (tok :: suf) acc = .err ErrOutOfRange) ∧
    ((tok = [] ∨ tok.all Char.isDigit = false) →
      ipv4Loop (tok :: suf) acc = .err ErrInvalidStx) := by
  constructor
  · intro hd hv
    have hne : tok.isEmpty = false := by
      cases tok with
      | nil => simp [digitsToNat] at hv
      | cons c ts => rfl
    by_cases hlt : digitsToNat tok < 18446744073709551616
    · simp [ipv4Loop, goParseUint, hne, hd, hlt, hv]
    · simp [ipv4Loop, goParseUint, hne, hd, hlt]
  · intro hbad
    rcases hbad with hnil | hnd
    · subst hnil
      simp [ipv4Loop, goParseUint, convertStrconvError, ErrInvalidStx]
    · have hne : tok.isEmpty = false := by
        cases tok with
        | nil => simp at hnd
        | cons c ts => rfl
      simp [ipv4Loop, goParseUint, hne, hnd, convertStrconvError, ErrInvalidStx]

/-- The loop walks past any list of good tokens and then reports the error
of the first bad token: `OutOfRange` for an all-digit token above 255,
`InvalidSyntax` for an empty or non-numeric token. -/
theorem ipv4Loop_err (tok : List Char) (suf : List (List Char)) :
    ∀ (pre : List (List Char)) (acc : List Nat), (∀ t ∈ pre, tokOK t) →
      ((tok.all Char.isDigit = true → 255 < digitsToNat tok →
        ipv4Loop (pre ++ tok :: suf) acc = .err ErrOutOfRange) ∧
       ((tok = [] ∨ tok.all Char.isDigit = false) →
        ipv4Loop (pre ++ tok :: suf) acc = .err ErrInvalidStx)) := by
  intro pre
  induction pre with
  | nil => intro acc _; exact ipv4Loop_err_base tok suf acc
  | cons t pre ih =>
    intro acc hpre
    obtain ⟨hne, hd, hle⟩ := hpre t (by simp)
    have hpre2 : ∀ u ∈ pre, tokOK u := fun u hu => hpre u (by simp [hu])
    have hne2 : t.isEmpty = false := by
      cases t with
      | nil => exact absurd rfl hne
      | cons c ts => rfl
    have hlt : digitsToNat t < 18446744073709551616 := by omega
    have hnlt : ¬(255 < digitsToNat t) := by omega
    have hstep : ipv4Loop ((t :: pre) ++ tok :: suf) acc =
        ipv4Loop (pre ++ tok :: suf) (acc ++ [digitsToNat t % 256]) := by
      simp [ipv4Loop, goParseUint, hne2, hd, hlt, hnlt]
    rw [hstep]
    exact ih (acc ++ [digitsToNat t % 256]) hpre2

/-- C8: in `IPv4ToInt`, once every earlier token is acceptable, an all-digit
token with value outside [0,255] fails with `OutOfRange` and an empty or
non-numeric token (including a signed one) fails with `InvalidSyntax`; in
particular parsing "-4" and "" yields `InvalidSyntax` and parsing
"256.168.0.1" yields `OutOfRange`. -/
theorem ipv4ToInt_token_errors :
    (∀ (s : String) (pre : List (List Char)) (tok : List Char) (suf : List (List Char)),
      splitOnDot s.toList = pre ++ tok :: suf → (∀ t ∈ pre, tokOK t) →
      ((tok.all Char.isDigit = true → 255 < digitsToNat tok →
        IPv4ToInt s = .err ErrOutOfRange) ∧
       ((tok = [] ∨ tok.all Char.isDigit = false) → IPv4ToInt s = .err ErrInvalidStx))) ∧
    IPv4ToInt "-4" = .err ErrInvalidStx ∧
    IPv4ToInt "" = .err ErrInvalidStx ∧
    IPv4ToInt "256.168.0.1" = .err ErrOutOfRange := by
  refine ⟨?_, by decide, by decide, by decide⟩
  intro s pre tok suf hsplit hpre
  unfold IPv4ToInt
  rw [hsplit]
  exact ipv4Loop_err tok suf pre [] hpre

/-- Witness for C8 at the input "1.256.3.4", whose second token is out of
range. -/
theorem ipv4ToInt_token_errors_witness :
    IPv4ToInt "1.256.3.4" = .err ErrOutOfRange :=
  (ipv4ToInt_token_errors.1 "1.256.3.4" [['1']] ['2', '5', '6'] [['3'], ['4']]
      (by decide) (by decide)).1 (by decide) (by decide)

/-- C5 (behavior of the code at the failing inputs): splitting "1.2.3" gives
three valid tokens and `binary.BigEndian.Uint32` then panics on the 3-byte
slice, and splitting "1.2.3.4.5" gives five valid tokens whose first four
bytes are silently packed into `0x01020304 = 16909060` — neither is the
`InvalidSyntax` rejection the claim requires. -/
theorem ipv4ToInt_count_neq4_behavior :
    IPv4ToInt "1.2.3" = .panics ∧ IPv4ToInt "1.2.3.4.5" = .ok 16909060 :=
  ⟨by decide, by decide⟩

theorem beUint32_lt (bs : List Nat) (hb : ∀ b ∈ bs, b < 256) (hlen : 4 ≤ bs.length) :
    beUint32 bs < 4294967296 := by
  match bs, hlen with
  | b0 :: b1 :: b2 :: b3 :: rest, _ =>
    have h0 : b0 < 256 := hb _ (by simp)
    have h1 : b1 < 256 := hb _ (by simp)
    have h2 : b2 < 256 := hb _ (by simp)
    have h3 : b3 < 256 := hb _ (by simp)
    show (b0 <<< 24) ||| (b1 <<< 16) ||| (b2 <<< 8) ||| b3 < 4294967296
    have e0 : b0 <<< 24 < 2 ^ 32 := by
      have hm : b0 <<< 24 = b0 * 16777216 := by rw [Nat.shiftLeft_eq]
      rw [hm, ← two_pow_32]
      omega
    have e1 : b1 <<< 16 < 2 ^ 32 := by
      have hm : b1 <<< 16 = b1 * 65536 := by rw [Nat.shiftLeft_eq]
      rw [hm, ← two_pow_32]
      omega
    have e2 : b2 <<< 8 < 2 ^ 32 := by
      have hm : b2 <<< 8 = b2 * 256 := by rw [Nat.shiftLeft_eq]
      rw [hm, ← two_pow_32]
      omega
    have e3 : b3 < 2 ^ 32 := by rw [← two_pow_32]; omega
    rw [two_pow_32]
    exact Nat.or_lt_two_pow (Nat.or_lt_two_pow (Nat.or_lt_two_pow e0 e1) e2) e3

/-- As long as at least four bytes are guaranteed (tokens remaining plus
bytes already accumulated), the loop ends in a value below `2^32` or an
error, never in the panic. -/
theorem ipv4Loop_total (toks : List (List Char)) :
    ∀ acc : List Nat, (∀ b ∈ acc, b < 256) → 4 ≤ toks.length + acc.length →
      (∃ v, ipv4Loop toks acc = .ok v ∧ v < 4294967296) ∨
      (∃ e, ipv4Loop toks acc = .err e) := by
  induction toks with
  | nil =>
    intro acc hb hlen
    simp at hlen
    left
    refine ⟨beUint32 acc, ?_, beUint32_lt acc hb (by omega)⟩
    simp only [ipv4Loop]
    rw [if_neg (by omega)]
  | cons t ts ih =>
    intro acc hb hlen
    by_cases h255 : 255 < (goParseUint t).1
    · right; exact ⟨ErrOutOfRange, by simp [ipv4Loop, h255]⟩
    · cases he : (goParseUint t).2 with
      | some e =>
        right
        exact ⟨convertStrconvError e, by simp [ipv4Loop, h255, he]⟩
      | none =>
        have hstep : ipv4Loop (t :: ts) acc = ipv4Loop ts (acc ++ [(goParseUint t).1 % 256]) := by
          simp [ipv4Loop, h255, he]
        rw [hstep]
        apply ih
        · intro b hbm
          rcases List.mem_append.mp hbm with hm | hm
          · exact hb b hm
          · simp at hm
            subst hm
            exact Nat.mod_lt _ (by norm_num)
        · simp at hlen ⊢
          omega

/-- C10 counterexample: on "1.2" both tokens parse, only two bytes are
accumulated, and `binary.BigEndian.Uint32` panics. -/
theorem ipv4ToInt_panics_short_input : IPv4ToInt "1.2" = .panics := by decide

/-- C10 amended: `IPv4ToInt` returns either a 32-bit value or an error —
never the panic — for every input whose split on '.' yields at least four
tokens; for fewer tokens it panics whenever every token parses (the panic of
`binary.BigEndian.Uint32` on a short byte slice). -/
theorem ipv4ToInt_total_amended (s : String) (h4 : 4 ≤ (splitOnDot s.toList).length) :
    IPv4ToInt s ≠ .panics ∧ ∀ v, IPv4ToInt s = .ok v → v < 4294967296 := by
  have h := ipv4Loop_total (splitOnDot s.toList) [] (by simp) (by simpa using h4)
  unfold IPv4ToInt
  rcases h with ⟨v, hv, hlt⟩ | ⟨e, he⟩
  · rw [hv]
    refine ⟨by simp, ?_⟩
    intro v2 hv2
    have := IPv4Result.ok.inj hv2
    omega
  · rw [he]
    exact ⟨by simp, fun v2 hv2 => by cases hv2⟩

/-- Witness for C10 at "10.0.0.1". -/
theorem ipv4ToInt_total_amended_witness : IPv4ToInt "10.0.0.1" ≠ .panics :=
  (ipv4ToInt_total_amended "10.0.0.1" (by decide)).1

/-- C6: for every integer N in [0,32], `ParseMask` applied to "/" followed
by the decimal of N yields exactly the 32-bit value whose top N bits are 1
and whose remaining 32−N bits are 0, bit-exactly, including the boundaries
N=0 (result 0) and N=32 (result 0xFFFFFFFF). -/
theorem parseMask_slash_topBits :
    (∀ N : Nat, N ≤ 32 →
      ParseMask (String.mk ('/' :: Nat.toDigits 10 N)) = .ok (topBitsValue N) ∧
      topBitsValue N < 4294967296 ∧
      ∀ i : Nat, i < 32 → (topBitsValue N).testBit i = decide (32 - N ≤ i)) ∧
    ParseMask "/0" = .ok 0 ∧ ParseMask "/32" = .ok 4294967295 := by
  refine ⟨?_, by decide, by decide⟩
  decide

/-- Witness for C6 at N = 25 (the mask 255.255.255.128 = 4294967168). -/
theorem parseMask_slash_topBits_witness :
    ParseMask (String.mk ('/' :: Nat.toDigits 10 25)) = .ok (topBitsValue 25) ∧
    topBitsValue 25 = 4294967168 :=
  ⟨(parseMask_slash_topBits.1 25 (by decide)).1, by decide⟩

/-- Witness for C7 at address 192.168.0.1 and mask /24. -/
theorem newNetwork_invariants_amended_witness :
    (NewNetwork 3232235521 4294967040).network &&& 4294967040 =
      (NewNetwork 3232235521 4294967040).network ∧
    (NewNetwork 3232235521 4294967040).network ≤ (NewNetwork 3232235521 4294967040).hostMin ∧
    (NewNetwork 3232235521 4294967040).hostMin ≤ (NewNetwork 3232235521 4294967040).hostMax ∧
    (NewNetwork 3232235521 4294967040).hostMax ≤ (NewNetwork 3232235521 4294967040).broadcast :=
  ⟨(newNetwork_invariants_amended 3232235521 4294967040).1,
    (newNetwork_invariants_amended 3232235521 4294967040).2 (by decide) (by decide) (by decide)⟩

/-- A successful `%d` scan decomposes its input into blanks, a maximal
non-empty digit run, and the returned remainder. -/
theorem scanNat_some_decomp (l : List Char) (v : Nat) (r : List Char)
    (h : scanNat l = some (v, r)) :
    ∃ bs ds, l = bs ++ ds ++ r ∧ (∀ c ∈ bs, blank c = true) ∧ ds ≠ [] ∧
      (∀ c ∈ ds, c.isDigit = true) ∧ v = digitsToNat ds ∧
      (∀ c t2, r = c :: t2 → c.isDigit = false) := by
  unfold scanNat at h
  by_cases hemp : ((l.dropWhile blank).takeWhile Char.isDigit).isEmpty = true
  · rw [if_pos hemp] at h; cases h
  · rw [if_neg hemp] at h
    have h2 := Option.some.inj h
    rw [Prod.mk.injEq] at h2
    obtain ⟨hv, hr⟩ := h2
    refine ⟨l.takeWhile blank, (l.dropWhile blank).takeWhile Char.isDigit,
      ?_, ?_, ?_, ?_, hv.symm, ?_⟩
    · rw [← hr, List.append_assoc, List.takeWhile_append_dropWhile,
        List.takeWhile_append_dropWhile]
    · intro c hc
      exact List.all_eq_true.mp List.all_takeWhile c hc
    · intro he
      rw [he] at hemp
      exact hemp rfl
    · intro c hc
      exact List.all_eq_true.mp List.all_takeWhile c hc
    · intro c t2 hct
      have hh := List.head?_dropWhile_not Char.isDigit (l.dropWhile blank)
      rw [← hr] at hct
      rw [hct] at hh
      simpa using hh

/-- A successful octet scan additionally bounds the value below 256. -/
theorem scanOctet_some_decomp (l : List Char) (v : Nat) (r : List Char)
    (h : scanOctet l = some (v, r)) :
    (∃ bs ds, l = bs ++ ds ++ r ∧ (∀ c ∈ bs, blank c = true) ∧ ds ≠ [] ∧
      (∀ c ∈ ds, c.isDigit = true) ∧ v = digitsToNat ds ∧
      (∀ c t2, r = c :: t2 → c.isDigit = false)) ∧ v < 256 := by
  unfold scanOctet at h
  cases hsn : scanNat l with
  | none => simp [hsn] at h
  | some vr =>
    obtain ⟨v2, r2⟩ := vr
    simp only [hsn] at h
    by_cases hb : v2 < 256
    · rw [if_pos hb] at h
      have h2 := Option.some.inj h
      rw [Prod.mk.injEq] at h2
      obtain ⟨hv, hr⟩ := h2
      subst hv
      subst hr
      exact ⟨scanNat_some_decomp l v2 r2 hsn, hb⟩
    · rw [if_neg hb] at h; cases h

theorem expectDot_some (r rt : List Char) (h : expectDot r = some rt) : r = '.' :: rt := by
  cases r with
  | nil => cases h
  | cons c rest =>
    by_cases hc : c = '.'
    · subst hc
      simp [expectDot] at h
      rw [h]
    · simp [expectDot, hc] at h

/-- A successful `"/%d"` scan of the text after the slash certifies the
relaxed slash grammar. -/
theorem sscanSlashD_some_relaxed (l : List Char) (p : Nat)
    (h : sscanSlashD l = some p) : RelaxedSlash ('/' :: l) := by
  unfold sscanSlashD at h
  cases hsn : scanNat l with
  | none => simp [hsn] at h
  | some vr =>
    obtain ⟨v, r⟩ := vr
    simp only [hsn] at h
    by_cases hb : v < 4294967296
    · obtain ⟨bs, ds, hdec, hbs, hne, hdig, hv, hmax⟩ := scanNat_some_decomp l v r hsn
      exact ⟨bs, ds, r, by rw [hdec], hbs, hne, hdig, hv ▸ hb, hmax⟩
    · rw [if_neg hb] at h; cases h

/-- A successful `"%d.%d.%d.%d"` scan certifies the relaxed quad grammar. -/
theorem sscanQuad_some_relaxed (l : List Char) (q : Nat × Nat × Nat × Nat)
    (h : sscanQuad l = some q) : RelaxedQuad l := by
  unfold sscanQuad at h
  cases h0 : scanOctet l with
  | none => simp [h0] at h
  | some p0 =>
    obtain ⟨v0, r0⟩ := p0
    simp only [h0] at h
    cases hd0 : expectDot r0 with
    | none => simp [hd0] at h
    | some r0t =>
      simp only [hd0] at h
      cases h1 : scanOctet r0t with
      | none => simp [h1] at h
      | some p1 =>
        obtain ⟨v1, r1⟩ := p1
        simp only [h1] at h
        cases hd1 : expectDot r1 with
        | none => simp [hd1] at h
        | some r1t =>
          simp only [hd1] at h
          cases h2 : scanOctet r1t with
          | none => simp [h2] at h
          | some p2 =>
            obtain ⟨v2, r2⟩ := p2
            simp only [h2] at h
            cases hd2 : expectDot r2 with
            | none => simp [hd2] at h
            | some r2t =>
              simp only [hd2] at h
              cases h3 : scanOctet r2t with
              | none => simp [h3] at h
              | some p3 =>
                obtain ⟨v3, r3⟩ := p3
                obtain ⟨⟨bs0, d0, he0, hb0, hn0, hg0, hq0, hm0⟩, hv0⟩ :=
                  scanOctet_some_decomp l v0 r0 h0
                obtain ⟨⟨bs1, d1, he1, hb1, hn1, hg1, hq1, hm1⟩, hv1⟩ :=
                  scanOctet_some_decomp r0t v1 r1 h1
                obtain ⟨⟨bs2, d2, he2, hb2, hn2, hg2, hq2, hm2⟩, hv2⟩ :=
                  scanOctet_some_decomp r1t v2 r2 h2
                obtain ⟨⟨bs3, d3, he3, hb3, hn3, hg3, hq3, hm3⟩, hv3⟩ :=
                  scanOctet_some_decomp r2t v3 r3 h3
                refine ⟨bs0, d0, bs1, d1, bs2, d2, bs3, d3, r3, ?_,
                  ⟨hb0, hb1, hb2, hb3⟩, ⟨hn0, hn1, hn2, hn3⟩,
                  ⟨hg0, hg1, hg2, hg3⟩,
                  ⟨hq0 ▸ hv0, hq1 ▸ hv1, hq2 ▸ hv2, hq3 ▸ hv3⟩, hm3⟩
                rw [he0, expectDot_some r0 r0t hd0, he1, expectDot_some r1 r1t hd1,
                  he2, expectDot_some r2 r2t hd2, he3]

/-- C9 counterexample: "/24abc" matches neither the strict `/<decimal 0-32>`
grammar nor the dotted-quad grammar, yet `ParseMask` accepts it (trailing
characters after the scanned "24" are ignored) and returns the /24 mask
4294967040 instead of failing with `MaskParse`. -/
theorem parseMask_accepts_trailing_garbage :
    isSlashForm ("/24abc".toList) = false ∧ isQuadForm ("/24abc".toList) = false ∧
    ParseMask "/24abc" = .ok 4294967040 ∧ ParseMask "/24abc" ≠ .error ErrMaskParse :=
  ⟨by decide, by decide, by decide, by decide⟩

/-- Every string in the relaxed quad grammar contains a dot. -/
theorem relaxedQuad_has_dot (l : List Char) (h : RelaxedQuad l) : '.' ∈ l := by
  obtain ⟨bs0, d0, bs1, d1, bs2, d2, bs3, d3, t, hdec, -⟩ := h
  rw [hdec]
  simp

/-- C9 amended: the grammar `ParseMask` actually enforces is the relaxed one
that ignores trailing input and does not bound the prefix by 32: it fails
with `MaskParse` exactly on the inputs outside both relaxed forms (a `/`
followed by optional blanks and an unsigned decimal fitting 32 bits, with
anything after it; or four dot-separated byte-valued decimals with anything
after them); strings such as "/24abc" that the strict grammar excludes are
accepted rather than rejected. -/
theorem parseMask_maskParse_amended (s : String)
    (h1 : ¬ RelaxedSlash s.toList) (h2 : ¬ RelaxedQuad s.toList) :
    ParseMask s = .error ErrMaskParse := by
  unfold ParseMask
  cases hl : s.toList with
  | nil => rfl
  | cons c rest =>
    rw [hl] at h1 h2
    cases rest with
    | nil => rfl
    | cons c2 rest2 =>
      by_cases hc : c = '/'
      · subst hc
        cases hscan : sscanSlashD (c2 :: rest2) with
        | none => simp [parseMaskL, hscan]
        | some p => exact absurd (sscanSlashD_some_relaxed _ p hscan) h1
      · cases hscan : sscanQuad (c :: c2 :: rest2) with
        | none => simp [parseMaskL, hc, hscan]
        | some q => exact absurd (sscanQuad_some_relaxed _ q hscan) h2

/-- Witness for C9 at the input "x", which is in neither relaxed grammar. -/
theorem parseMask_maskParse_amended_witness : ParseMask "x" = .error ErrMaskParse := by
  apply parseMask_maskParse_amended
  · rintro ⟨bs, ds, t, hdec, -⟩
    injection hdec with hh htail
    exact absurd hh (by decide)
  · intro h
    have hd := relaxedQuad_has_dot _ h
    simp at hd
